import Mathlib

/-!
A shallow embedding of the emulated-asynchronous retrieval scheduler of
`lib/mqi.js` from the mq-mqi-nodejs package, together with proofs of the
scheduler's documented properties.

The embedding covers:
* the MQI constants the scheduler compares against (values as defined by
  the package's `lib/mqidefs.js` constant tables);
* the per-subscription `UserContext` record and the context registry
  (`contextMap`, a JS `Map` keyed by the string `hConn + "/" + hObj`);
* the per-`hConn` gate (`hConnsInUse`) as a labelled transition system;
* the completion callback of `pollHObjInternal`, the heart of the
  emulated-async MQGET loop, as a pure step function;
* the top-level loop bookkeeping (`pollAllHConns`, `resetGetLoop`,
  `Get` re-arming, `GetDone`).

JS numbers that hold MQI LONG values are modelled as `Int`; buffer sizes
and lengths (always non-negative) as `Nat`.
-/

namespace MQNode

/-! ### MQI constants (values from `lib/mqidefs.js`) -/

def MQCC_OK : Int := 0
def MQCC_FAILED : Int := 2
def MQRC_NO_MSG_AVAILABLE : Int := 2033
def MQRC_TRUNCATED_MSG_FAILED : Int := 2080
def MQRC_HOBJ_ERROR : Int := 2019
def MQWI_UNLIMITED : Int := -1

/-! ### Buffer sizing constants (`lib/mqi.js` lines 92-94) -/

/-- `const maxBufSize = 100 * 1024 * 1024;` — maximum message length is 100MB. -/
def maxBufSize : Nat := 100 * 1024 * 1024

/-- `const defaultBufSize = 10240;` — the 10K default/floor buffer size. -/
def defaultBufSize : Nat := 10240

/-! ### Tuning parameters (`lib/mqi.js` lines 161-201) -/

structure TuningParameters where
  maxConsecutiveGets : Nat
  getLoopPollTimeMs : Nat
  getLoopDelayTimeMs : Nat
deriving Repr, DecidableEq

/-- The default tuning values (`maxConsecutiveGetsDefault` etc.). -/
def defaultTuningParameters : TuningParameters :=
  { maxConsecutiveGets := 100
    getLoopPollTimeMs := 10 * 1000
    getLoopDelayTimeMs := 250 }

/-! ### The get-message-options template

`UserContext.jsgmo` stores the caller's `MQGMO`. The scheduler reads its
`WaitInterval`, and (on the success path only) writes its `Options` field
back from the working copy. The remaining fields modelled here stand for
the rest of the structure, which the scheduler never writes. -/

structure MQGMO where
  Options : Int
  WaitInterval : Int
  MatchOptions : Int
  MsgToken : List Nat
deriving Repr, DecidableEq

/-- `c.state` is the JS string `'running'` or `'waiting'`
(`UserContext` constructor, `lib/mqi.js` line 580). -/
inductive CtxState where
  | running
  | waiting
deriving Repr, DecidableEq

/-- The per-subscription record built by `UserContext(o,cb)`
(`lib/mqi.js` lines 571-583) and filled in by `Get`.  `hConn`/`hObj`
stand for `c.object._mqQueueManager._hConn` and `c.object._hObj`.  The
user callback itself (`c.cb`) carries no scheduler-relevant data; `Get`
enforces its presence via `checkParamCBRequired(cb,true)`, so the
`if (c.cb)` guard in the completion callback is always taken. -/
structure UserContext where
  hConn : Int
  hObj : Int
  WaitInterval : Int
  WaitStartTime : Int
  jsgmo : MQGMO
  bufSize : Nat
  state : CtxState
  retrieved : Nat
deriving Repr, DecidableEq

/-! ### The MQGET completion callback as a step function

`pollHObjInternal` (`lib/mqi.js` lines 2129-2267) issues one
`MQGET.async` and interprets the outcome inside the completion callback
(lines 2175-2266).  `handleGetCompletion` is that callback, made pure:

* `contextMapSize` is `contextMap.size` at the time the callback runs;
* `jsgmo` is the working copy of the get-message-options as it stands
  when the user handler has returned (the handler is invoked with it and
  may mutate it, e.g. browse-first to browse-next);
* `jsCc`, `jsRc`, `jsDatalen` are the MQGET outputs;
* `now` is `Date.now()` observed in the callback.

The result records the context's fate (`none` means
`deleteUserContext(c.object)` ran), what was surfaced to the user
handler, and which continuation was scheduled. -/

/-- What the callback surfaced to the user handler `c.cb`. -/
inductive Signal where
  | none
  | error (mqcc mqrc : Int)
  | message (datalen : Nat)
deriving Repr, DecidableEq

/-- Which continuation the callback scheduled on exit. -/
inductive NextAction where
  /-- `setTimeout(pollHObjInternal,0)` — immediate retry of the same context. -/
  | retryImmediate
  /-- `setTimeout(pollHObjInternal,ms)` — delayed retry of the same context. -/
  | retryDelayed (ms : Nat)
  /-- fall through to `pollHobjs(hConn)` — hand the connection back to the
  fairness loop. -/
  | pollHobjsAgain
deriving Repr, DecidableEq

structure GetStepResult where
  ctx : Option UserContext
  signal : Signal
  action : NextAction
deriving Repr, DecidableEq

/-- The completion callback of `pollHObjInternal`
(`lib/mqi.js` lines 2175-2266), with the surrounding mutations of `c`
made explicit.

On the shrink heuristic (lines 2248-2252): the JS comparison
`(c.bufSize * 90) / 100 > jsDatalen` uses exact float division;
since `c.bufSize * 90 ≤ 100MiB * 90 < 2^53` both products are exact
doubles and the quotient differs from the true rational by far less than
the minimal gap `1/100`, the comparison equals the rational one, here
written over `Nat` as `c.bufSize * 90 > jsDatalen * 100`; likewise
`Math.floor((c.bufSize * 90) / 100)` equals `Nat` division. -/
def handleGetCompletion (tp : TuningParameters) (contextMapSize : Nat)
    (c : UserContext) (jsgmo : MQGMO) (jsCc jsRc : Int) (jsDatalen : Nat)
    (now : Int) : GetStepResult :=
  if jsCc ≠ MQCC_OK then
    -- Has the wait interval expired? (lines 2192-2203)
    let timeDiff : Int := now - c.WaitStartTime
    let waitExpired : Bool :=
      if c.WaitInterval = MQWI_UNLIMITED then false
      else if timeDiff < c.WaitInterval then false
      else true
    if jsRc = MQRC_TRUNCATED_MSG_FAILED then
      -- lines 2207-2215: double the buffer (capped) and poll again immediately
      let bufSize := c.bufSize * 2
      let bufSize := if bufSize > maxBufSize then maxBufSize else bufSize
      { ctx := some { c with bufSize := bufSize }
        signal := Signal.none
        action := NextAction.retryImmediate }
    else if jsRc = MQRC_NO_MSG_AVAILABLE ∧ waitExpired = false then
      -- lines 2216-2224: wait has not expired
      if contextMapSize ≤ 1 then
        { ctx := some c
          signal := Signal.none
          action := NextAction.retryDelayed tp.getLoopPollTimeMs }
      else
        { ctx := some c
          signal := Signal.none
          action := NextAction.pollHobjsAgain }
    else
      -- lines 2225-2231: terminal — send back err, delete the context
      { ctx := Option.none
        signal := Signal.error jsCc jsRc
        action := NextAction.pollHobjsAgain }
  else
    -- lines 2232-2262: got a message
    let c1 : UserContext :=
      { c with
        state := CtxState.running
        retrieved := c.retrieved + 1
        WaitInterval := c.jsgmo.WaitInterval
        WaitStartTime := now
        jsgmo := { c.jsgmo with Options := jsgmo.Options } }
    let bufSize :=
      if c1.bufSize > defaultBufSize ∧ c1.bufSize * 90 > jsDatalen * 100 then
        let b := c1.bufSize * 90 / 100
        if b < defaultBufSize then defaultBufSize else b
      else c1.bufSize
    let c2 : UserContext := { c1 with bufSize := bufSize }
    if c2.retrieved < tp.maxConsecutiveGets then
      { ctx := some c2
        signal := Signal.message jsDatalen
        action := NextAction.retryImmediate }
    else
      { ctx := some c2
        signal := Signal.message jsDatalen
        action := NextAction.pollHobjsAgain }

/-! ### The context registry (`contextMap`, `lib/mqi.js` lines 570-642)

`contextMap` is a JS `Map` from the string key
`hConn + "/" + hObj` (built by `getKey`) to `UserContext`.  A JS `Map`
is modelled as an association list with at most one entry per key:
`Map.set` replaces the value in place when the key is present,
`Map.get` returns the first (only) binding, `Map.delete` removes it. -/

/-- `getKey(jsObject)` (`lib/mqi.js` lines 587-595) for a non-null object. -/
def getKey (hConn hObj : Int) : String :=
  toString hConn ++ "/" ++ toString hObj

/-- JS `Map.prototype.get`. -/
def mapGet (m : List (String × UserContext)) (k : String) : Option UserContext :=
  match m with
  | [] => Option.none
  | (k', v) :: rest => if k' = k then some v else mapGet rest k

/-- JS `Map.prototype.set`: replace in place if the key is present,
append otherwise. -/
def mapSet (m : List (String × UserContext)) (k : String) (v : UserContext) :
    List (String × UserContext) :=
  match m with
  | [] => [(k, v)]
  | (k', v') :: rest => if k' = k then (k, v) :: rest else (k', v') :: mapSet rest k v

/-- JS `Map.prototype.delete`. -/
def mapDelete (m : List (String × UserContext)) (k : String) :
    List (String × UserContext) :=
  match m with
  | [] => []
  | (k', v') :: rest => if k' = k then rest else (k', v') :: mapDelete rest k

/-! ### Top-level scheduler state and loop

The process-wide mutable variables of `lib/mqi.js`:
`contextMap` (line 570), `getLoop`/`scheduledGetLoop` (lines 1933-1934,
`getLoop` modelled as the Bool `getLoop != null`), and `hConnsInPoll`
(line 1952). -/

structure SchedState where
  contextMap : List (String × UserContext)
  scheduledGetLoop : Bool
  getLoop : Bool
  hConnsInPoll : List Int
deriving Repr, DecidableEq

/-- `resetGetLoop()` (`lib/mqi.js` lines 1979-1982). -/
def resetGetLoop (s : SchedState) : SchedState :=
  { s with scheduledGetLoop := false, getLoop := false }

/-- The hConns of all registered contexts, deduplicated
(`getFreshHconnsForPoll`, `lib/mqi.js` lines 2077-2092), minus those
already being polled. -/
def getFreshHconnsForPoll (s : SchedState) : List Int :=
  ((s.contextMap.map (fun p => p.2.hConn)).dedup).filter
    (fun hc => ¬ hc ∈ s.hConnsInPoll)

/-- `pollAllHConns()` (`lib/mqi.js` lines 1959-1977): the timer-driven
driver.  If any context exists, each fresh hConn other than `-1` is
added to `hConnsInPoll` and dispatched to `pollPerHconn` (the returned
list); `-1` entries are instead dropped from `hConnsInPoll` (a no-op
here, since fresh hConns are by construction not in that set).  If no
context exists the loop resets itself and dispatches nothing. -/
def pollAllHConns (s : SchedState) : SchedState × List Int :=
  if s.contextMap.length = 0 then (resetGetLoop s, [])
  else
    let dispatched := (getFreshHconnsForPoll s).filter (fun hc => hc ≠ -1)
    ({ s with hConnsInPoll := s.hConnsInPoll ++ dispatched }, dispatched)

/-- The registration part of `exports.Get` (`lib/mqi.js` lines
1901-1929): store the context under its key and, when the re-arm test
`if (!scheduledGetLoop || getLoop == null)` (line 1925) passes, set
`scheduledGetLoop = true; getLoop = setTimeout(pollAllHConns,0);`.  The
returned Bool records whether that branch ran, i.e. whether a
`pollAllHConns` timer was actually created: when it is `false`, no new
timer exists and the retrieval loop only runs if some older timer chain
is still alive. -/
def GetRegister (s : SchedState) (k : String) (c : UserContext) :
    SchedState × Bool :=
  let s1 := { s with contextMap := mapSet s.contextMap k c }
  if ¬ s1.scheduledGetLoop ∨ s1.getLoop = false then
    ({ s1 with scheduledGetLoop := true, getLoop := true }, true)
  else (s1, false)

/-- What a run of `pollHobjs` leaves scheduled. -/
inductive PollHobjsNext where
  /-- return with nothing scheduled (`hConn == -1`, line 2013). -/
  | nothingScheduled
  /-- `setTimeout(pollPerHconn.bind(null,hConn), ms)` (lines 2028, 2032). -/
  | repollAfter (ms : Nat)
  /-- pick one running context and `initGet` it (lines 2036-2048). -/
  | dispatch
deriving Repr, DecidableEq

/-- `getAllContextsForPoll(hConn)` (`lib/mqi.js` lines 2069-2072). -/
def getAllContextsForPoll (s : SchedState) (hConn : Int) : List UserContext :=
  (s.contextMap.map Prod.snd).filter (fun c => decide (c.hConn = hConn))

/-- `getRunningContexts(hObjsToPoll)` (`lib/mqi.js` lines 2058-2064). -/
def getRunningContexts (hObjsToPoll : List UserContext) : List UserContext :=
  hObjsToPoll.filter (fun c => decide (c.state = CtxState.running))

/-- `pollHobjs(hConn)` (`lib/mqi.js` lines 2010-2053), restricted to its
effect on the loop flags and to what it schedules.
`messagesRetrievedInHConnPoll` is the global counter read at line 2023.
Branch order as in source: return on a broken hConn; otherwise
`scheduledGetLoop = false` (line 2022), then re-arm with a delayed
`pollPerHconn` when the previous cycle was productive (lines 2023-2028)
or when no context is running (lines 2029-2033); otherwise shuffle and
dispatch one context (the picked context itself is elided here — its
reset to `retrieved = 0` is `pollHobjsPick`).  Note that no branch ever
calls `resetGetLoop` or touches `getLoop`. -/
def pollHobjs (tp : TuningParameters) (s : SchedState) (hConn : Int)
    (messagesRetrievedInHConnPoll : Nat) : SchedState × PollHobjsNext :=
  if hConn = -1 then (s, PollHobjsNext.nothingScheduled)
  else
    let nonWaitingContexts :=
      getRunningContexts (getAllContextsForPoll s hConn)
    let s1 := { s with scheduledGetLoop := false }
    if messagesRetrievedInHConnPoll > 0 then
      ({ s1 with scheduledGetLoop := true },
       PollHobjsNext.repollAfter tp.getLoopDelayTimeMs)
    else if nonWaitingContexts.length = 0 then
      ({ s1 with scheduledGetLoop := true },
       PollHobjsNext.repollAfter tp.getLoopPollTimeMs)
    else
      (s1, PollHobjsNext.dispatch)

/-- `pollPerHconn(hConn)` (`lib/mqi.js` lines 1987-2008): zero the
retrieved counter (line 1990); when the hConn has no outstanding
context (or is broken), drop it from `hConnsInPoll` and return —
scheduling nothing and leaving the loop flags untouched (lines
1994-1998); otherwise reset every context of the connection to
`running` with `retrieved = 0` (lines 2001-2004) and continue into
`pollHobjs`. -/
def pollPerHconn (tp : TuningParameters) (s : SchedState) (hConn : Int) :
    SchedState × PollHobjsNext :=
  let hObjsToPoll := getAllContextsForPoll s hConn
  if hObjsToPoll.length = 0 ∨ hConn = -1 then
    ({ s with hConnsInPoll := s.hConnsInPoll.erase hConn },
     PollHobjsNext.nothingScheduled)
  else
    let s1 := { s with contextMap := s.contextMap.map (fun p =>
        if p.2.hConn = hConn then
          (p.1, { p.2 with state := CtxState.running, retrieved := 0 })
        else p) }
    pollHobjs tp s1 hConn 0

/-- `new MQError(mqcc,mqrc,verb)`. -/
structure MQError where
  mqcc : Int
  mqrc : Int
  verb : String
deriving Repr, DecidableEq

/-- `exports.GetDone` (`lib/mqi.js` lines 2284-2301).  `hasCb` is
whether the optional callback was supplied; the Bool in the result is
whether it was invoked (with `null`).  An unknown context makes the verb
throw `MQError(MQCC_FAILED, MQRC_HOBJ_ERROR)`, modelled as
`Except.error`. -/
def GetDone (s : SchedState) (k : String) (hasCb : Bool) :
    Except MQError (SchedState × Bool) :=
  match mapGet s.contextMap k with
  | Option.none =>
      Except.error { mqcc := MQCC_FAILED, mqrc := MQRC_HOBJ_ERROR, verb := "GetDone" }
  | some _ =>
      let s1 := { s with contextMap := mapDelete s.contextMap k }
      let s2 := if s1.contextMap.length = 0 then resetGetLoop s1 else s1
      Except.ok (s2, hasCb)

/-! ### The per-connection gate (`hConnsInUse`, `lib/mqi.js` lines 644-665)

`pollHObjInternal` (lines 2129-2135) runs, in one synchronous JS block:
`if (isLocked(hConn)) return setImmediate(pollHObjInternal); else
lock(hConn);` and then issues `MQGET.async`; the completion callback
(line 2177) begins with `unlock(hConn)`.  Since JS is single-threaded,
the test-and-set and the issuing of the transport call are atomic, and
these are the only sites touching `hConnsInUse` or issuing the
scheduler's MQGET.  The transition system below has exactly those
events.  `inFlight` records the attempts currently past the gate (an
`MQGET.async` issued, completion callback not yet run), tagged with an
attempt identifier and the hConn. -/

structure GateState where
  hConnsInUse : List Int
  inFlight : List (Nat × Int)
deriving Repr, DecidableEq

inductive GateStep : GateState → GateState → Prop
  /-- `isLocked(hConn)` was true: the attempt reschedules itself via
  `setImmediate` and does not reach the transport. -/
  | defer (s : GateState) (hc : Int) (h : hc ∈ s.hConnsInUse) : GateStep s s
  /-- `isLocked(hConn)` was false: `lock(hConn)` then `MQGET.async`. -/
  | enter (s : GateState) (id : Nat) (hc : Int) (h : ¬ hc ∈ s.hConnsInUse) :
      GateStep s { hConnsInUse := hc :: s.hConnsInUse,
                   inFlight := (id, hc) :: s.inFlight }
  /-- The completion callback runs: `unlock(hConn)` and the attempt is
  no longer in flight. -/
  | complete (s : GateState) (id : Nat) (hc : Int) (h : (id, hc) ∈ s.inFlight) :
      GateStep s { hConnsInUse := s.hConnsInUse.erase hc,
                   inFlight := s.inFlight.erase (id, hc) }

/-- The scheduler starts with no lock held and nothing in flight. -/
def GateState.init : GateState := { hConnsInUse := [], inFlight := [] }

/-- States reachable from the initial gate state. -/
def GateReachable (s : GateState) : Prop :=
  Relation.ReflTransGen GateStep GateState.init s

/-- The gate invariant: every in-flight attempt holds the lock for its
hConn, and no two in-flight attempts share an hConn. -/
def GateInv (s : GateState) : Prop :=
  (∀ p ∈ s.inFlight, p.2 ∈ s.hConnsInUse) ∧ (s.inFlight.map Prod.snd).Nodup

/-! ### Runs of the executor on a single context

`runNoMsg` iterates `handleGetCompletion` for a context whose queue
never yields a message: every MQGET comes back
`(MQCC_FAILED, MQRC_NO_MSG_AVAILABLE)`.  `times` are the `Date.now()`
values observed by the successive completion callbacks; the working
GMO copy carries the stored template's values.  The result is the
context's final fate and how many times the user handler was invoked
with an error. -/
def runNoMsg (tp : TuningParameters) (size : Nat) :
    Option UserContext → List Int → Option UserContext × Nat
  | Option.none, _ => (Option.none, 0)
  | some c, [] => (some c, 0)
  | some c, now :: rest =>
      let r := handleGetCompletion tp size c c.jsgmo MQCC_FAILED
                 MQRC_NO_MSG_AVAILABLE 0 now
      let p := runNoMsg tp size r.ctx rest
      (p.1, (match r.signal with | Signal.error _ _ => 1 | _ => 0) + p.2)

/-- `pollHobjs` resets the picked context's per-cycle count before
dispatching it (`c.retrieved = 0; initGet(c);`, `lib/mqi.js` lines
2046-2048). -/
def pollHobjsPick (c : UserContext) : UserContext :=
  { c with retrieved := 0 }

/-- `drainRun` iterates `handleGetCompletion` for a context whose queue
always has a message ready: each element of `msgs` is the
`(jsDatalen, now)` of one successful MQGET.  It counts the messages
delivered to the handler before the executor stops retrying the same
context immediately (i.e. until its action is no longer
`retryImmediate`, or the supply runs out). -/
def drainRun (tp : TuningParameters) (size : Nat) :
    UserContext → List (Nat × Int) → Nat
  | _, [] => 0
  | c, (dl, now) :: rest =>
      let r := handleGetCompletion tp size c c.jsgmo MQCC_OK 0 dl now
      match r.ctx, r.action with
      | some c', NextAction.retryImmediate => 1 + drainRun tp size c' rest
      | _, _ => 1

/-! ### Step lemmas for `handleGetCompletion` -/

theorem handle_truncated (tp : TuningParameters) (n : Nat) (c : UserContext)
    (gmo : MQGMO) (dl : Nat) (now : Int) :
    handleGetCompletion tp n c gmo MQCC_FAILED MQRC_TRUNCATED_MSG_FAILED dl now =
      { ctx := some { c with bufSize :=
          if c.bufSize * 2 > maxBufSize then maxBufSize else c.bufSize * 2 }
        signal := Signal.none
        action := NextAction.retryImmediate } := by
  simp [handleGetCompletion, MQCC_FAILED, MQCC_OK, MQRC_TRUNCATED_MSG_FAILED]

theorem handle_noMsg_notExpired (tp : TuningParameters) (n : Nat) (c : UserContext)
    (gmo : MQGMO) (dl : Nat) (now : Int)
    (h : c.WaitInterval = MQWI_UNLIMITED ∨ now - c.WaitStartTime < c.WaitInterval) :
    handleGetCompletion tp n c gmo MQCC_FAILED MQRC_NO_MSG_AVAILABLE dl now =
      { ctx := some c
        signal := Signal.none
        action := if n ≤ 1 then NextAction.retryDelayed tp.getLoopPollTimeMs
                  else NextAction.pollHobjsAgain } := by
  have hne : MQRC_NO_MSG_AVAILABLE ≠ MQRC_TRUNCATED_MSG_FAILED := by decide
  rcases h with h | h
  · simp only [handleGetCompletion, MQCC_FAILED, MQCC_OK, hne, h]
    norm_num
    split <;> rfl
  · by_cases hu : c.WaitInterval = MQWI_UNLIMITED
    · simp only [handleGetCompletion, MQCC_FAILED, MQCC_OK, hne, hu]
      norm_num
      split <;> rfl
    · simp only [handleGetCompletion, MQCC_FAILED, MQCC_OK, hne, hu]
      simp only [h, if_true, if_false, ite_false]
      norm_num [h]
      split <;> rfl

theorem handle_noMsg_expired (tp : TuningParameters) (n : Nat) (c : UserContext)
    (gmo : MQGMO) (dl : Nat) (now : Int)
    (h1 : c.WaitInterval ≠ MQWI_UNLIMITED)
    (h2 : c.WaitInterval ≤ now - c.WaitStartTime) :
    handleGetCompletion tp n c gmo MQCC_FAILED MQRC_NO_MSG_AVAILABLE dl now =
      { ctx := Option.none
        signal := Signal.error MQCC_FAILED MQRC_NO_MSG_AVAILABLE
        action := NextAction.pollHobjsAgain } := by
  have hne : MQRC_NO_MSG_AVAILABLE ≠ MQRC_TRUNCATED_MSG_FAILED := by decide
  have h2' : ¬ now - c.WaitStartTime < c.WaitInterval := not_lt.mpr h2
  simp [handleGetCompletion, MQCC_FAILED, MQCC_OK, hne, h1, h2']

theorem handle_success (tp : TuningParameters) (n : Nat) (c : UserContext)
    (gmo : MQGMO) (jsRc : Int) (dl : Nat) (now : Int) :
    handleGetCompletion tp n c gmo MQCC_OK jsRc dl now =
      { ctx := some
          { c with
            state := CtxState.running
            retrieved := c.retrieved + 1
            WaitInterval := c.jsgmo.WaitInterval
            WaitStartTime := now
            jsgmo := { c.jsgmo with Options := gmo.Options }
            bufSize :=
              if c.bufSize > defaultBufSize ∧ c.bufSize * 90 > dl * 100 then
                if c.bufSize * 90 / 100 < defaultBufSize then defaultBufSize
                else c.bufSize * 90 / 100
              else c.bufSize }
        signal := Signal.message dl
        action := if c.retrieved + 1 < tp.maxConsecutiveGets then
                    NextAction.retryImmediate
                  else NextAction.pollHobjsAgain } := by
  simp only [handleGetCompletion, ne_eq, not_true_eq_false, if_false,
    ite_not, if_true]
  split <;> rfl

/-! ### Gate invariant proofs -/

theorem gateInv_init : GateInv GateState.init := by
  constructor
  · intro p hp
    simp [GateState.init] at hp
  · simp [GateState.init]

theorem gateInv_preserved {s s' : GateState} (h : GateInv s) (st : GateStep s s') :
    GateInv s' := by
  obtain ⟨h1, h2⟩ := h
  cases st with
  | defer hc hmem => exact ⟨h1, h2⟩
  | enter i hc hn =>
      constructor
      · intro p hp
        rcases List.mem_cons.mp hp with rfl | hp'
        · exact List.mem_cons_self _ _
        · exact List.mem_cons_of_mem _ (h1 p hp')
      · simp only [List.map_cons]
        refine List.nodup_cons.mpr ⟨?_, h2⟩
        intro hmem2
        rcases List.mem_map.mp hmem2 with ⟨p, hp, hpe⟩
        exact hn (hpe ▸ h1 p hp)
  | complete i hc hmem =>
      have hflNodup : s.inFlight.Nodup := h2.of_map Prod.snd
      constructor
      · intro p hp
        obtain ⟨hpne, hpold⟩ := (List.Nodup.mem_erase_iff hflNodup).mp hp
        have hsnd : p.2 ≠ hc := by
          intro he
          exact hpne (List.inj_on_of_nodup_map h2 hpold hmem (he.trans rfl))
        exact (List.mem_erase_of_ne hsnd).mpr (h1 p hpold)
      · exact h2.sublist ((List.erase_sublist (i, hc) s.inFlight).map Prod.snd)

theorem gateReachable_inv {s : GateState} (h : GateReachable s) : GateInv s := by
  induction h with
  | refl => exact gateInv_init
  | tail _ st ih => exact gateInv_preserved ih st

/-! ### Registry (JS `Map`) lemmas -/

theorem mapSet_keys (m : List (String × UserContext)) (k : String) (v : UserContext) :
    (mapSet m k v).map Prod.fst =
      if k ∈ m.map Prod.fst then m.map Prod.fst else m.map Prod.fst ++ [k] := by
  induction m with
  | nil => simp [mapSet]
  | cons p rest ih =>
      obtain ⟨ks, vs⟩ := p
      by_cases he : ks = k
      · subst he
        simp [mapSet]
      · have he' : ¬ k = ks := fun h => he h.symm
        by_cases hk : k ∈ rest.map Prod.fst
        · simp [mapSet, he, ih, hk, he']
        · simp [mapSet, he, ih, hk, he']

theorem mapSet_keys_nodup (m : List (String × UserContext)) (k : String)
    (v : UserContext) (h : (m.map Prod.fst).Nodup) :
    ((mapSet m k v).map Prod.fst).Nodup := by
  rw [mapSet_keys]
  split
  · exact h
  · rename_i hk
    simp [List.nodup_append, h, hk]

theorem mapGet_set_self (m : List (String × UserContext)) (k : String) (v : UserContext) :
    mapGet (mapSet m k v) k = some v := by
  induction m with
  | nil => simp [mapSet, mapGet]
  | cons p rest ih =>
      obtain ⟨ks, vs⟩ := p
      by_cases he : ks = k <;> simp [mapSet, mapGet, he, ih]

theorem mapGet_set_ne (m : List (String × UserContext)) (k : String) (v : UserContext)
    (k' : String) (h : k' ≠ k) :
    mapGet (mapSet m k v) k' = mapGet m k' := by
  have h' : ¬ k = k' := fun hh => h hh.symm
  induction m with
  | nil => simp [mapSet, mapGet, h']
  | cons p rest ih =>
      obtain ⟨ks, vs⟩ := p
      by_cases he : ks = k
      · subst he
        simp [mapSet, mapGet, h']
      · simp [mapSet, mapGet, he, ih]

theorem mapDelete_keys_sublist (m : List (String × UserContext)) (k : String) :
    List.Sublist ((mapDelete m k).map Prod.fst) (m.map Prod.fst) := by
  induction m with
  | nil => simp [mapDelete]
  | cons p rest ih =>
      obtain ⟨ks, vs⟩ := p
      by_cases he : ks = k
      · simp only [mapDelete, he, if_true, List.map_cons]
        exact List.sublist_cons_self _ _
      · simp only [mapDelete, he, if_false, List.map_cons]
        exact ih.cons₂ _

theorem mapDelete_keys_nodup (m : List (String × UserContext)) (k : String)
    (h : (m.map Prod.fst).Nodup) :
    ((mapDelete m k).map Prod.fst).Nodup :=
  h.sublist (mapDelete_keys_sublist m k)

theorem mapGet_eq_none_of_not_mem (m : List (String × UserContext)) (k : String)
    (h : ¬ k ∈ m.map Prod.fst) :
    mapGet m k = Option.none := by
  induction m with
  | nil => rfl
  | cons p rest ih =>
      obtain ⟨ks, vs⟩ := p
      simp only [List.map_cons, List.mem_cons] at h
      push_neg at h
      have : ks ≠ k := fun hh => h.1 hh.symm
      simp [mapGet, this, ih h.2]

theorem mapGet_delete_self (m : List (String × UserContext)) (k : String)
    (h : (m.map Prod.fst).Nodup) :
    mapGet (mapDelete m k) k = Option.none := by
  induction m with
  | nil => rfl
  | cons p rest ih =>
      obtain ⟨ks, vs⟩ := p
      rw [List.map_cons, List.nodup_cons] at h
      obtain ⟨hnm, hnd⟩ := h
      by_cases he : ks = k
      · subst he
        simp only [mapDelete, if_pos rfl]
        exact mapGet_eq_none_of_not_mem rest ks hnm
      · simp [mapDelete, mapGet, he, ih hnd]

/-! ### Behaviour of a context that never sees a message -/

theorem runNoMsg_none (tp : TuningParameters) (n : Nat) (times : List Int) :
    runNoMsg tp n Option.none times = (Option.none, 0) := by
  cases times <;> rfl

theorem runNoMsg_cons (tp : TuningParameters) (n : Nat) (c : UserContext)
    (now : Int) (rest : List Int) :
    runNoMsg tp n (some c) (now :: rest) =
      (let r := handleGetCompletion tp n c c.jsgmo MQCC_FAILED
                  MQRC_NO_MSG_AVAILABLE 0 now
       ((runNoMsg tp n r.ctx rest).1,
        (match r.signal with | Signal.error _ _ => 1 | _ => 0)
          + (runNoMsg tp n r.ctx rest).2)) := rfl

/-- Characterisation of a no-message run: the context survives unchanged
with no handler invocation as long as its wait has not expired (always,
for an unlimited wait), and the first attempt at or past the deadline
invokes the handler once and removes the context. -/
theorem runNoMsg_spec (tp : TuningParameters) (n : Nat) (c : UserContext)
    (times : List Int) :
    (c.WaitInterval = MQWI_UNLIMITED →
      runNoMsg tp n (some c) times = (some c, 0))
    ∧ (c.WaitInterval ≠ MQWI_UNLIMITED →
        ((∃ t ∈ times, c.WaitInterval ≤ t - c.WaitStartTime) →
            runNoMsg tp n (some c) times = (Option.none, 1))
        ∧ ((∀ t ∈ times, t - c.WaitStartTime < c.WaitInterval) →
            runNoMsg tp n (some c) times = (some c, 0))) := by
  induction times with
  | nil =>
      refine ⟨fun _ => rfl, fun _ => ⟨?_, fun _ => rfl⟩⟩
      rintro ⟨t, ht, -⟩
      cases ht
  | cons now rest ih =>
      constructor
      · intro hu
        rw [runNoMsg_cons,
          handle_noMsg_notExpired tp n c c.jsgmo 0 now (Or.inl hu)]
        simp only [ih.1 hu]
      · intro hW
        constructor
        · rintro ⟨t, ht, hq⟩
          rw [runNoMsg_cons]
          by_cases hnow : c.WaitInterval ≤ now - c.WaitStartTime
          · rw [handle_noMsg_expired tp n c c.jsgmo 0 now hW hnow]
            simp [runNoMsg_none]
          · rw [handle_noMsg_notExpired tp n c c.jsgmo 0 now
              (Or.inr (by omega))]
            rcases List.mem_cons.mp ht with rfl | htr
            · omega
            · simp only [(ih.2 hW).1 ⟨t, htr, hq⟩]
        · intro hall
          rw [runNoMsg_cons,
            handle_noMsg_notExpired tp n c c.jsgmo 0 now
              (Or.inr (hall now (List.mem_cons_self _ _)))]
          simp only [(ih.2 hW).2
            (fun t ht => hall t (List.mem_cons_of_mem _ ht))]

/-! ### Behaviour of a context that drains a busy queue -/

theorem drainRun_cons (tp : TuningParameters) (n : Nat) (c : UserContext)
    (dl : Nat) (now : Int) (rest : List (Nat × Int)) :
    drainRun tp n c ((dl, now) :: rest) =
      (let r := handleGetCompletion tp n c c.jsgmo MQCC_OK 0 dl now
       match r.ctx, r.action with
       | some c', NextAction.retryImmediate => 1 + drainRun tp n c' rest
       | _, _ => 1) := rfl

/-- Within one dispatch, the executor delivers at most
`maxConsecutiveGets - c.retrieved` further messages before handing the
connection back to the fairness loop. -/
theorem drainRun_le (tp : TuningParameters) (n : Nat) (msgs : List (Nat × Int)) :
    ∀ c : UserContext, c.retrieved < tp.maxConsecutiveGets →
      drainRun tp n c msgs ≤ tp.maxConsecutiveGets - c.retrieved := by
  induction msgs with
  | nil =>
      intro c _
      simp [drainRun]
  | cons m rest ih =>
      intro c hc
      obtain ⟨dl, now⟩ := m
      rw [drainRun_cons, handle_success]
      by_cases hlt : c.retrieved + 1 < tp.maxConsecutiveGets
      · rw [if_pos hlt]
        have h2 : ∀ c' : UserContext, c'.retrieved = c.retrieved + 1 →
            1 + drainRun tp n c' rest ≤ tp.maxConsecutiveGets - c.retrieved := by
          intro c' hc'
          have hrec := ih c' (by omega)
          omega
        exact h2 _ rfl
      · rw [if_neg hlt]
        have h1 : (1 : Nat) ≤ tp.maxConsecutiveGets - c.retrieved := by omega
        exact h1

/-! ### Sample values used by the witnesses -/

def sampleGMO : MQGMO :=
  { Options := 0, WaitInterval := 2000, MatchOptions := 3, MsgToken := [1, 2] }

def sampleCtx : UserContext :=
  { hConn := 1
    hObj := 21
    WaitInterval := 2000
    WaitStartTime := 0
    jsgmo := sampleGMO
    bufSize := defaultBufSize
    state := CtxState.running
    retrieved := 0 }

/-! ### The claims -/

/-- C1: for every connection handle at most one transport (MQI) call of
the emulated-async retrieval scheduler is in flight at any time.  In
every reachable state of the gate system (attempts acquire `hConnsInUse`
before `MQGET.async` and release it in the completion callback, and an
attempt finding the gate held defers itself), every in-flight attempt
holds the lock of its hConn, and no hConn has two attempts past the
gate. -/
theorem gate_mutual_exclusion (s : GateState) (h : GateReachable s) :
    (∀ p ∈ s.inFlight, p.2 ∈ s.hConnsInUse)
    ∧ ∀ hc : Int, ((s.inFlight.map Prod.snd).count hc) ≤ 1 := by
  obtain ⟨h1, h2⟩ := gateReachable_inv h
  exact ⟨h1, List.nodup_iff_count_le_one.mp h2⟩

theorem gate_mutual_exclusion_witness :
    (∀ p ∈ ({ hConnsInUse := [7], inFlight := [(0, 7)] } : GateState).inFlight,
        p.2 ∈ ({ hConnsInUse := [7], inFlight := [(0, 7)] } : GateState).hConnsInUse)
    ∧ ∀ hc : Int,
        ((({ hConnsInUse := [7], inFlight := [(0, 7)] } : GateState).inFlight.map
            Prod.snd).count hc) ≤ 1 :=
  gate_mutual_exclusion _
    (Relation.ReflTransGen.single
      (GateStep.enter GateState.init 0 7 (by simp [GateState.init])))

/-- C3: a truncation outcome (`MQRC_TRUNCATED_MSG_FAILED`) doubles the
context's buffer capacity, clamped at `maxBufSize` (100 MiB), schedules
an immediate (zero-delay) retry of the same context, and surfaces
nothing to the handler; in particular a 10240-byte capacity becomes
20480 bytes. -/
theorem truncation_doubles_buffer (tp : TuningParameters) (n : Nat)
    (c : UserContext) (gmo : MQGMO) (dl : Nat) (now : Int) :
    (handleGetCompletion tp n c gmo MQCC_FAILED MQRC_TRUNCATED_MSG_FAILED dl now =
      { ctx := some { c with bufSize := min (c.bufSize * 2) maxBufSize }
        signal := Signal.none
        action := NextAction.retryImmediate })
    ∧ (c.bufSize = 10240 →
        (handleGetCompletion tp n c gmo MQCC_FAILED MQRC_TRUNCATED_MSG_FAILED
            dl now).ctx = some { c with bufSize := 20480 }) := by
  have h := handle_truncated tp n c gmo dl now
  have hb : (if c.bufSize * 2 > maxBufSize then maxBufSize else c.bufSize * 2) =
      min (c.bufSize * 2) maxBufSize := by
    split <;> omega
  constructor
  · rw [h, hb]
  · intro hc
    rw [h]
    have h20 : (if c.bufSize * 2 > maxBufSize then maxBufSize else c.bufSize * 2)
        = 20480 := by
      rw [hc]
      norm_num [maxBufSize]
    rw [h20]

theorem truncation_doubles_buffer_witness :
    (handleGetCompletion defaultTuningParameters 1 sampleCtx sampleGMO
        MQCC_FAILED MQRC_TRUNCATED_MSG_FAILED 0 0).ctx =
      some { sampleCtx with bufSize := 20480 } :=
  (truncation_doubles_buffer defaultTuningParameters 1 sampleCtx sampleGMO 0 0).2 rfl

/-- C4: after a successful retrieval, the context's buffer capacity for
the next attempt is `floor (90% previous)` clamped below at
`defaultBufSize`, exactly when the previous capacity exceeded
`defaultBufSize` and the delivered length was under 90% of it; in all
other success cases it is unchanged. -/
theorem success_shrinks_buffer (tp : TuningParameters) (n : Nat)
    (c : UserContext) (gmo : MQGMO) (jsRc : Int) (dl : Nat) (now : Int) :
    ∃ c', (handleGetCompletion tp n c gmo MQCC_OK jsRc dl now).ctx = some c'
      ∧ c'.bufSize =
          (if defaultBufSize < c.bufSize ∧ dl * 100 < c.bufSize * 90 then
             max defaultBufSize (c.bufSize * 90 / 100)
           else c.bufSize) := by
  rw [handle_success]
  refine ⟨_, rfl, ?_⟩
  show (if c.bufSize > defaultBufSize ∧ c.bufSize * 90 > dl * 100 then
          if c.bufSize * 90 / 100 < defaultBufSize then defaultBufSize
          else c.bufSize * 90 / 100
        else c.bufSize) = _
  split_ifs with h1 h2 <;> omega

/-- C10: on the success path, once the user handler has returned, the
stored GMO template receives the working copy's `Options`
(`c.jsgmo.Options = jsgmo.Options`) while every other modelled field of
the stored template is unchanged, and the context's `WaitInterval` is
reset from the template and its `WaitStartTime` to the current time. -/
theorem success_writes_back_gmo_options (tp : TuningParameters) (n : Nat)
    (c : UserContext) (gmo : MQGMO) (jsRc : Int) (dl : Nat) (now : Int) :
    ∃ c', (handleGetCompletion tp n c gmo MQCC_OK jsRc dl now).ctx = some c'
      ∧ c'.jsgmo.Options = gmo.Options
      ∧ c'.jsgmo.WaitInterval = c.jsgmo.WaitInterval
      ∧ c'.jsgmo.MatchOptions = c.jsgmo.MatchOptions
      ∧ c'.jsgmo.MsgToken = c.jsgmo.MsgToken
      ∧ c'.WaitInterval = c.jsgmo.WaitInterval
      ∧ c'.WaitStartTime = now := by
  rw [handle_success]
  exact ⟨_, rfl, rfl, rfl, rfl, rfl, rfl, rfl⟩

/-- C5: within one fairness-picker dispatch the number of messages
delivered by consecutive immediate self-retries never exceeds
`maxConsecutiveGets`: the per-cycle count is reset to zero when the
context is picked (`pollHobjsPick`), incremented on each success, and
once it reaches the cap the action is no longer an immediate retry but a
return to the per-connection fairness loop. -/
theorem maxConsecutiveGets_cap (tp : TuningParameters) (n : Nat)
    (c : UserContext) (msgs : List (Nat × Int))
    (hmax : 0 < tp.maxConsecutiveGets) :
    drainRun tp n (pollHobjsPick c) msgs ≤ tp.maxConsecutiveGets
    ∧ (pollHobjsPick c).retrieved = 0
    ∧ (∀ (c' : UserContext) (gmo : MQGMO) (jsRc : Int) (dl : Nat) (now : Int),
        ((handleGetCompletion tp n c' gmo MQCC_OK jsRc dl now).ctx.map
            UserContext.retrieved = some (c'.retrieved + 1))
        ∧ ((handleGetCompletion tp n c' gmo MQCC_OK jsRc dl now).action =
              NextAction.retryImmediate ↔
            c'.retrieved + 1 < tp.maxConsecutiveGets)) := by
  refine ⟨?_, rfl, ?_⟩
  · have h := drainRun_le tp n msgs (pollHobjsPick c)
      (by simpa [pollHobjsPick] using hmax)
    exact h.trans (Nat.sub_le _ _)
  · intro c' gmo jsRc dl now
    rw [handle_success]
    constructor
    · by_cases h : c'.retrieved + 1 < tp.maxConsecutiveGets <;> simp [h]
    · by_cases h : c'.retrieved + 1 < tp.maxConsecutiveGets <;> simp [h]

def sampleTuning3 : TuningParameters :=
  { maxConsecutiveGets := 3
    getLoopPollTimeMs := 10000
    getLoopDelayTimeMs := 250 }

theorem maxConsecutiveGets_cap_witness :
    0 < sampleTuning3.maxConsecutiveGets
    ∧ drainRun sampleTuning3 2 (pollHobjsPick sampleCtx)
        [(5, 10), (5, 20), (5, 30), (5, 40), (5, 50)] ≤
          sampleTuning3.maxConsecutiveGets
    ∧ drainRun sampleTuning3 2 (pollHobjsPick sampleCtx)
        [(5, 10), (5, 20), (5, 30), (5, 40), (5, 50)] = 3 :=
  ⟨by decide,
   (maxConsecutiveGets_cap sampleTuning3 2 sampleCtx
        [(5, 10), (5, 20), (5, 30), (5, 40), (5, 50)] (by decide)).1,
   by decide⟩

/-- C6: when an attempt finds no message available and the wait is
unlimited or not yet exhausted, the executor self-delays by
`getLoopPollTimeMs` before retrying the same context exactly when it is
the only outstanding context in the whole process (`contextMap.size`,
which is at least 1 since this context is registered, is 1); otherwise
it hands the connection back to the per-connection fairness loop.
Nothing is surfaced and the context is kept either way. -/
theorem noMsg_self_delay_iff_sole_context (tp : TuningParameters) (n : Nat)
    (c : UserContext) (gmo : MQGMO) (dl : Nat) (now : Int)
    (hreg : 1 ≤ n)
    (hwait : c.WaitInterval = MQWI_UNLIMITED ∨
      now - c.WaitStartTime < c.WaitInterval) :
    ((handleGetCompletion tp n c gmo MQCC_FAILED MQRC_NO_MSG_AVAILABLE dl
        now).action = NextAction.retryDelayed tp.getLoopPollTimeMs ↔ n = 1)
    ∧ ((handleGetCompletion tp n c gmo MQCC_FAILED MQRC_NO_MSG_AVAILABLE dl
        now).action = NextAction.pollHobjsAgain ↔ 2 ≤ n)
    ∧ (handleGetCompletion tp n c gmo MQCC_FAILED MQRC_NO_MSG_AVAILABLE dl
        now).ctx = some c
    ∧ (handleGetCompletion tp n c gmo MQCC_FAILED MQRC_NO_MSG_AVAILABLE dl
        now).signal = Signal.none := by
  rw [handle_noMsg_notExpired tp n c gmo dl now hwait]
  refine ⟨?_, ?_, rfl, rfl⟩
  · show (if n ≤ 1 then NextAction.retryDelayed tp.getLoopPollTimeMs
        else NextAction.pollHobjsAgain) =
        NextAction.retryDelayed tp.getLoopPollTimeMs ↔ n = 1
    by_cases hn : n ≤ 1
    · simp only [hn, if_true, true_iff]
      omega
    · simp only [hn, if_false]
      constructor
      · intro h
        cases h
      · omega
  · show (if n ≤ 1 then NextAction.retryDelayed tp.getLoopPollTimeMs
        else NextAction.pollHobjsAgain) = NextAction.pollHobjsAgain ↔ 2 ≤ n
    by_cases hn : n ≤ 1
    · simp only [hn, if_true]
      constructor
      · intro h
        cases h
      · omega
    · simp only [hn, if_false, true_iff]
      omega

theorem noMsg_self_delay_iff_sole_context_witness :
    (handleGetCompletion defaultTuningParameters 1 sampleCtx sampleGMO
        MQCC_FAILED MQRC_NO_MSG_AVAILABLE 0 0).action =
      NextAction.retryDelayed defaultTuningParameters.getLoopPollTimeMs :=
  (noMsg_self_delay_iff_sole_context defaultTuningParameters 1 sampleCtx
      sampleGMO 0 0 (by decide) (Or.inr (by decide))).1.mpr rfl

/-- C2: a context whose queue never yields a message and whose
`WaitInterval` is finite has its handler invoked exactly once, with the
terminal no-message error, at an attempt where at least `WaitInterval`
ms have elapsed since `WaitStartTime`, and is removed at that same
attempt (so no later attempt touches it); with
`WaitInterval = MQWI_UNLIMITED` no signal is ever produced and the
context is never removed. -/
theorem wait_timeout_fires_exactly_once (tp : TuningParameters) (n : Nat)
    (c : UserContext) (times : List Int) :
    ((runNoMsg tp n (some c) times).2 ≤ 1)
    ∧ (c.WaitInterval ≠ MQWI_UNLIMITED →
        (((runNoMsg tp n (some c) times).2 = 1 ↔
            ∃ t ∈ times, c.WaitInterval ≤ t - c.WaitStartTime)
         ∧ ((runNoMsg tp n (some c) times).1 = Option.none ↔
              (runNoMsg tp n (some c) times).2 = 1)
         ∧ (∀ now : Int, c.WaitInterval ≤ now - c.WaitStartTime →
              handleGetCompletion tp n c c.jsgmo MQCC_FAILED
                  MQRC_NO_MSG_AVAILABLE 0 now =
                { ctx := Option.none
                  signal := Signal.error MQCC_FAILED MQRC_NO_MSG_AVAILABLE
                  action := NextAction.pollHobjsAgain })
         ∧ (∀ now : Int,
              (handleGetCompletion tp n c c.jsgmo MQCC_FAILED
                  MQRC_NO_MSG_AVAILABLE 0 now).signal ≠ Signal.none →
                c.WaitInterval ≤ now - c.WaitStartTime)))
    ∧ (c.WaitInterval = MQWI_UNLIMITED →
        runNoMsg tp n (some c) times = (some c, 0)) := by
  have hspec := runNoMsg_spec tp n c times
  by_cases hu : c.WaitInterval = MQWI_UNLIMITED
  · refine ⟨?_, fun hW => absurd hu hW, hspec.1⟩
    rw [hspec.1 hu]
    norm_num
  · have hstepExp : ∀ now : Int, c.WaitInterval ≤ now - c.WaitStartTime →
        handleGetCompletion tp n c c.jsgmo MQCC_FAILED MQRC_NO_MSG_AVAILABLE
            0 now =
          { ctx := Option.none
            signal := Signal.error MQCC_FAILED MQRC_NO_MSG_AVAILABLE
            action := NextAction.pollHobjsAgain } :=
      fun now hnow => handle_noMsg_expired tp n c c.jsgmo 0 now hu hnow
    have hstepSig : ∀ now : Int,
        (handleGetCompletion tp n c c.jsgmo MQCC_FAILED MQRC_NO_MSG_AVAILABLE
            0 now).signal ≠ Signal.none →
          c.WaitInterval ≤ now - c.WaitStartTime := by
      intro now hsig
      by_contra hlt
      rw [handle_noMsg_notExpired tp n c c.jsgmo 0 now
        (Or.inr (by omega))] at hsig
      exact hsig rfl
    by_cases hex : ∃ t ∈ times, c.WaitInterval ≤ t - c.WaitStartTime
    · have hrun := (hspec.2 hu).1 hex
      rw [hrun]
      refine ⟨le_refl 1, fun _ => ⟨?_, ?_, hstepExp, hstepSig⟩, fun h => absurd h hu⟩
      · simp [hex]
      · simp
    · have hall : ∀ t ∈ times, t - c.WaitStartTime < c.WaitInterval := by
        intro t ht
        by_contra hge
        exact hex ⟨t, ht, by omega⟩
      have hrun := (hspec.2 hu).2 hall
      rw [hrun]
      refine ⟨by norm_num, fun _ => ⟨?_, ?_, hstepExp, hstepSig⟩,
        fun h => absurd h hu⟩
      · simp [hex]
      · simp

theorem wait_timeout_fires_exactly_once_witness :
    (runNoMsg defaultTuningParameters 1 (some sampleCtx) [500, 2500, 9000]).2 = 1
    ∧ (runNoMsg defaultTuningParameters 1 (some sampleCtx) [500, 2500, 9000]).1 =
        Option.none := by
  have h := wait_timeout_fires_exactly_once defaultTuningParameters 1 sampleCtx
    [500, 2500, 9000]
  obtain ⟨-, h2, -⟩ := h
  obtain ⟨hiff, hrem, -, -⟩ := h2 (by decide)
  have hone : (runNoMsg defaultTuningParameters 1 (some sampleCtx)
      [500, 2500, 9000]).2 = 1 :=
    hiff.mpr ⟨2500, by decide, by decide⟩
  exact ⟨hone, hrem.mpr hone⟩

/-- C7: the context registry holds at most one context per key at any
time: `Map.set` keeps the key set duplicate-free (so each key counts at
most once), makes the new context the one retrieved for that key (the
old one is discarded), leaves every other key's binding untouched, and
`Map.delete` preserves the no-duplicate invariant. -/
theorem contextMap_at_most_one_per_key (m : List (String × UserContext))
    (k : String) (v : UserContext) (h : (m.map Prod.fst).Nodup) :
    ((mapSet m k v).map Prod.fst).Nodup
    ∧ (∀ k', ((mapSet m k v).map Prod.fst).count k' ≤ 1)
    ∧ mapGet (mapSet m k v) k = some v
    ∧ (∀ k', k' ≠ k → mapGet (mapSet m k v) k' = mapGet m k')
    ∧ ((mapDelete m k).map Prod.fst).Nodup := by
  have hnd := mapSet_keys_nodup m k v h
  exact ⟨hnd, List.nodup_iff_count_le_one.mp hnd, mapGet_set_self m k v,
    fun k' hk' => mapGet_set_ne m k v k' hk', mapDelete_keys_nodup m k h⟩

theorem contextMap_at_most_one_per_key_witness :
    mapGet (mapSet [(getKey 1 21, sampleCtx)] (getKey 1 21)
        { sampleCtx with bufSize := 20480 }) (getKey 1 21) =
      some { sampleCtx with bufSize := 20480 } :=
  (contextMap_at_most_one_per_key [(getKey 1 21, sampleCtx)] (getKey 1 21)
      { sampleCtx with bufSize := 20480 } (by simp)).2.2.1

/-- The scheduler state during the wait-expired completion callback of
the sole registered context, just after `deleteUserContext` emptied the
registry (`lib/mqi.js` line 2230): the flags set by the original `Get`
are still armed (`scheduledGetLoop = true`, `getLoop` non-null). -/
def schedAfterTimeout : SchedState :=
  { contextMap := []
    scheduledGetLoop := true
    getLoop := true
    hConnsInPoll := [1] }

/-- `schedAfterTimeout` after the dying `pollPerHconn` repoll dropped
the hConn: registry empty, yet `scheduledGetLoop` still `true` and
`getLoop` still a stale non-null handle. -/
def schedStale : SchedState :=
  { contextMap := []
    scheduledGetLoop := true
    getLoop := true
    hConnsInPoll := [] }

/-- A completely empty scheduler state. -/
def sampleSched0 : SchedState :=
  { contextMap := []
    scheduledGetLoop := false
    getLoop := false
    hConnsInPoll := [] }

/-- C8 (code bug): the claim holds for removal by `GetDone`
(`resetGetLoop` at lines 2294-2297) but is false for its other two
enumerated removal mechanisms.  Concrete run for removal by terminal
error: the sole context (wait 2000ms from t=0) sees no message at
t=2500, so the callback deletes it and falls into `pollHobjs` (i);
`pollHobjs` on the empty registry leaves `scheduledGetLoop = true`,
never touches `getLoop`, and only schedules a `pollPerHconn` repoll
(ii); that repoll finds no context and dies, dropping the hConn but
leaving the registry empty with both flags still armed (iii); a
subsequent `Get` then fails the re-arm test
`!scheduledGetLoop || getLoop == null` (line 1925) and creates no
`pollAllHConns` timer (iv) — so the loop was never stopped in the
resettable sense and a new registration does not re-arm it,
contradicting the claim and the code's own intent
("And start the retrieval loop if necessary", line 1924).  Removal by
connection teardown (`deleteUserConnection`, lines 633-642) likewise
never resets the flags. -/
theorem idle_shutdown_code_bug :
    (handleGetCompletion defaultTuningParameters 1 sampleCtx sampleCtx.jsgmo
        MQCC_FAILED MQRC_NO_MSG_AVAILABLE 0 2500 =
      { ctx := Option.none
        signal := Signal.error MQCC_FAILED MQRC_NO_MSG_AVAILABLE
        action := NextAction.pollHobjsAgain })
    ∧ pollHobjs defaultTuningParameters schedAfterTimeout 1 0 =
        (schedAfterTimeout, PollHobjsNext.repollAfter 10000)
    ∧ pollPerHconn defaultTuningParameters schedAfterTimeout 1 =
        (schedStale, PollHobjsNext.nothingScheduled)
    ∧ schedStale.contextMap = []
    ∧ schedStale.scheduledGetLoop = true
    ∧ schedStale.getLoop = true
    ∧ GetRegister schedStale "1/22" sampleCtx =
        ({ schedStale with contextMap := [("1/22", sampleCtx)] }, false) := by
  decide

/-- C9: `GetDone` on a key with no registered context never crashes: it
reports the unknown-context condition as an `MQError` with
`MQCC_FAILED` / `MQRC_HOBJ_ERROR`.  When the context exists, `GetDone`
removes it (the key no longer resolves), invokes the optional callback
with null exactly when one was supplied, and stops the loop when the
removed context was the last one anywhere. -/
theorem getDone_unknown_context_safe (s : SchedState) (k : String) (hb : Bool)
    (hnd : (s.contextMap.map Prod.fst).Nodup) :
    (mapGet s.contextMap k = Option.none →
      GetDone s k hb = Except.error
        { mqcc := MQCC_FAILED, mqrc := MQRC_HOBJ_ERROR, verb := "GetDone" })
    ∧ (∀ c : UserContext, mapGet s.contextMap k = some c →
        ∃ s' : SchedState, GetDone s k hb = Except.ok (s', hb)
          ∧ s'.contextMap = mapDelete s.contextMap k
          ∧ mapGet s'.contextMap k = Option.none
          ∧ (s'.contextMap = [] →
              s'.scheduledGetLoop = false ∧ s'.getLoop = false)) := by
  constructor
  · intro hnone
    unfold GetDone
    rw [hnone]
  · intro c hc
    unfold GetDone
    rw [hc]
    by_cases hlen : (mapDelete s.contextMap k).length = 0
    · refine ⟨resetGetLoop { s with contextMap := mapDelete s.contextMap k },
        ?_, rfl, ?_, ?_⟩
      · simp [hlen]
      · exact mapGet_delete_self s.contextMap k hnd
      · intro _
        exact ⟨rfl, rfl⟩
    · have hlen2 : ¬ mapDelete s.contextMap k = [] := by
        intro h0
        exact hlen (by simp [h0])
      refine ⟨{ s with contextMap := mapDelete s.contextMap k },
        ?_, rfl, ?_, ?_⟩
      · simp [hlen2]
      · exact mapGet_delete_self s.contextMap k hnd
      · intro hemp
        exact absurd (show mapDelete s.contextMap k = [] from hemp) hlen2

theorem getDone_unknown_context_safe_witness :
    GetDone sampleSched0 "1/21" false =
      Except.error
        { mqcc := MQCC_FAILED, mqrc := MQRC_HOBJ_ERROR, verb := "GetDone" } :=
  (getDone_unknown_context_safe sampleSched0 "1/21" false (by decide)).1 rfl

end MQNode
